import Mathlib

/-!
Verification of the BLUEPRINT print-layout core: a shallow embedding of
`encodedDistance`, `calculateJPG` and `setEpsonConfig` from `src/app.py`
(the codec is duplicated verbatim in `src/test.py`), and of the legacy
table-driven `endcodedDistance` from `src/Combined.py`.

Modelling conventions:
* Python's arbitrary-precision integers are `ℤ`/`ℕ`; the source performs no
  `% 65536` anywhere, so neither does the embedding.
* Python float ("true") division raises `ZeroDivisionError` on a zero
  divisor, so divisions are guarded and fallible code returns
  `Option`/`Except`.  Two readings of float arithmetic coexist: an
  idealized exact-`ℚ` one, used only where the 53-bit rounding cannot
  change the claim on the verified domain, and a bit-faithful IEEE-754
  binary64 one (`roundF` and the `...F` functions) for the
  rounding-sensitive claims.
* `int(x)` truncates toward zero (`truncQ`), `math.ceil` is `Int.ceil`.
* Python list indexing `xs[i]` with possibly negative `i` is `pyGet`.
* The binary config file is a byte map `ℕ → ℕ` (offset to byte value);
  `int.to_bytes(2, byteorder='big')` raises `OverflowError` outside
  `[0, 65536)`, modelled by an explicit range check, and otherwise produces
  the big-endian byte pair `be2`.
-/

set_option maxRecDepth 8000

namespace Blueprint

/-- The 23-element step pattern `vector` of `encodedDistance`
(src/app.py lines 201-202). -/
def vector : List ℕ :=
  [0, 1, 0, 1, 1, 0, 1, 0, 1, 1, 0, 1, 0, 1, 1, 0, 1, 0, 1, 1, 0, 1, 1]

/-- The `for i in range(...)` loop body of `encodedDistance`
(src/app.py lines 208-219): the first argument counts remaining iterations,
`start` and `stage` are the loop-carried accumulator and cycle position, and
the returned list is the `result` list in append order.  On a `0` pattern
entry the accumulator drops by 39935, on a `1` entry it rises by 25600; the
stage wraps from 22 back to 0.  Python integers are unbounded, so the
arithmetic is exact (no reduction modulo 65536 appears in the source). -/
def edGo : ℕ → ℤ → ℕ → List ℤ
  | 0, _, _ => []
  | n + 1, start, stage =>
    let next := if vector.getD stage 0 = 0 then start - 39935 else start + 25600
    next :: edGo n next (if stage + 1 = 23 then 0 else stage + 1)

/-- The full `result` list of `encodedDistance` after `iters` iterations,
from the initial state `start = 65535`, `stage = 0` (src/app.py lines 200-219). -/
def edResult (iters : ℕ) : List ℤ := edGo iters 65535 0

/-- Python list indexing: a negative index `i` selects element `len + i`
(so `xs[-1]` is the last element); out-of-range access is modelled by the
default `0` (it never occurs in the uses below, where the index is always
in range). -/
def pyGet (xs : List ℤ) (i : ℤ) : ℤ :=
  if i < 0 then xs.getD (xs.length - (-i).toNat) 0 else xs.getD i.toNat 0

/-- `encodedDistance` (src/app.py lines 199-221, identical in
src/test.py lines 1-23): run `inches + 1` iterations of the step loop and
return `result[i - 1]`, where `i` holds its final loop value, namely
`inches`.  For `inches = 0` the index is Python's `-1`, selecting the last
(and only) element of the one-element result list.  The final
`int(hex(...), 16)` round-trip in the source is the identity on Python
integers (including negative ones) and is therefore omitted. -/
def encodedDistance (inches : ℕ) : ℤ :=
  pyGet (edResult (inches + 1)) ((inches : ℤ) - 1)

/-- The legacy 76-entry lookup table `whyIsItSoLong`
(src/Combined.py line 39), transcribed verbatim. -/
def whyIsItSoLong : List ℕ :=
  [0xf401, 0x5802, 0xbc02, 0x2003, 0x8403, 0xe803, 0x4c04, 0xb004, 0x1405,
   0x7805, 0xdc05, 0x4006, 0xa406, 0x0807, 0x6C07, 0xd007, 0x3408, 0x9808,
   0xFC08, 0x6009, 0xc409, 0x280a, 0x8c0a, 0xf00a, 0x540b, 0xB80B, 0x1c0c,
   0x800c, 0xe40c, 0x480d, 0xac0d, 0x100e, 0x740e, 0xd80e, 0x3c0f, 0xa00f,
   0x0410, 0x6810, 0xcc10, 0x3011, 0x9411, 0xf811, 0x5c12, 0xc012, 0x2413,
   0x8813, 0xec13, 0x5014, 0xb414, 0x1815, 0x7c15, 0xe015, 0x4416, 0xa816,
   0x0c17, 0x7017, 0xd417, 0x3818, 0x9c18, 0x0019, 0x6419, 0xc819, 0x2c1a,
   0x901a, 0xf41a, 0x581b, 0xbc1b, 0x201c, 0x841c, 0xe81c, 0x4c1d, 0xb01d,
   0x141e, 0x781e, 0xdc1e, 0x401f]

/-- Legacy table-driven `endcodedDistance` (src/Combined.py lines 35-40):
inputs below 5 are clamped to 5, then the table is indexed at `height - 5`. -/
def endcodedDistance (height : ℤ) : ℕ :=
  let h := if height < 5 then 5 else height
  whyIsItSoLong.getD (h - 5).toNat 0

/-! ### Layout resolution: `calculateJPG` (src/app.py lines 122-196) -/

/-- Pixel dimensions of a PIL image, as read by `calculateJPG`. -/
structure ImgDims where
  width : ℕ
  height : ℕ
deriving DecidableEq

/-- The `options` dictionary fields consumed by `calculateJPG`
(request shape: `side`, `specific_width`, `specific_height`, `specific_dpi`,
`paper_width`; `None` is `Option.none`). -/
structure RenderOptions where
  side : String
  specific_width : Option ℤ
  specific_height : Option ℤ
  specific_dpi : Option ℤ
  paper_width : ℤ

/-- The two sequential transpose checks at the top of `calculateJPG`
(src/app.py lines 129-134): rotate if the long side is the width and the
short side was requested, then rotate if the width is the short side and
the long side was requested.  The second test looks at the possibly already
rotated dimensions, exactly as the source re-reads `image.width`. -/
def rotDims (d : ImgDims) (side : String) : ImgDims :=
  let d1 := if d.width > d.height ∧ side = "short" then ⟨d.height, d.width⟩ else d
  if d1.width < d1.height ∧ side = "long" then ⟨d1.height, d1.width⟩ else d1

/-- Idealized reading of Python float (true) division: raises
`ZeroDivisionError` on a zero denominator, modelled as `none`; otherwise
the exact quotient in `ℚ`.  The actual program computes in IEEE-754
binary64; the bit-faithful reading (`pyDivII` / `pyDivIF` below) rounds
the quotient with `roundF`.  This idealized reading is used only for
claims whose truth does not depend on the 53-bit rounding on the verified
domain; claims sensitive to rounding use the bit-faithful functions. -/
def pyDiv (a b : ℚ) : Option ℚ := if b = 0 then none else some (a / b)

/-- Python `int()` applied to a rational: truncation toward zero. -/
def truncQ (q : ℚ) : ℤ := if q < 0 then ⌈q⌉ else ⌊q⌋

/-- The branch structure of `calculateJPG` before the final rounding
(src/app.py lines 126-186) in the idealized exact-rational reading: the
provisional `final_width_inches`, `final_height_inches`, `final_dpi` as
exact rationals (see `calculateJPGrawF` for the bit-faithful IEEE-754
reading; the idealized one backs only rounding-insensitive claims).
Case 1 (a specific width and/or height is given, lines 137-162) has three
sub-branches: width only, height only, or both with the bounding dimension
chosen by comparing `width/specific_width > height/specific_height`.
Case 2 (lines 165-170) uses the given dpi directly.
Case 3 (lines 173-186) fills the paper width.  Each Python `/` is `pyDiv`. -/
def calculateJPGraw (img : ImgDims) (opts : RenderOptions) : Option (ℚ × ℚ × ℚ) :=
  let d := rotDims img opts.side
  let w : ℚ := d.width
  let h : ℚ := d.height
  match opts.specific_width, opts.specific_height with
  | some sw, none => do
    let dpi ← pyDiv w (sw : ℚ)
    let hIn ← pyDiv h dpi
    pure ((sw : ℚ), hIn, dpi)
  | none, some sh => do
    let dpi ← pyDiv h (sh : ℚ)
    let wIn ← pyDiv w dpi
    pure (wIn, (sh : ℚ), dpi)
  | some sw, some sh => do
    let dpiW ← pyDiv w (sw : ℚ)
    let dpiH ← pyDiv h (sh : ℚ)
    if dpiH < dpiW then do
      let hIn ← pyDiv h dpiW
      pure ((sw : ℚ), hIn, dpiW)
    else do
      let wIn ← pyDiv w dpiH
      pure (wIn, (sh : ℚ), dpiH)
  | none, none =>
    match opts.specific_dpi with
    | some sdpi => do
      let wIn ← pyDiv w (sdpi : ℚ)
      let hIn ← pyDiv h (sdpi : ℚ)
      pure (wIn, hIn, (sdpi : ℚ))
    | none =>
      let sides :=
        if (opts.side = "short" ∧ d.width > d.height) ∨
           (opts.side = "long" ∧ d.width < d.height)
        then (h, w) else (w, h)
      do
        let dpi ← pyDiv sides.1 (opts.paper_width : ℚ)
        let hIn ← pyDiv sides.2 dpi
        pure ((opts.paper_width : ℚ), hIn, dpi)

/-- `calculateJPG` (src/app.py lines 122-196): the branch computation above
followed by the finalization of lines 189-191,
`int(final_width_inches)`, `math.ceil(final_height_inches)`,
`int(final_dpi)`, returned as the (width, height, dpi) triple.
The returned image itself carries no further information beyond the
(possibly rotated) dimensions and is not modelled. -/
def calculateJPG (img : ImgDims) (opts : RenderOptions) : Option (ℤ × ℤ × ℤ) :=
  match calculateJPGraw img opts with
  | none => none
  | some (w, h, dpi) => some (truncQ w, ⌈h⌉, truncQ dpi)

/-! ### Config patching: `setEpsonConfig` (src/app.py lines 224-261) -/

/-- The Python exceptions `setEpsonConfig` can raise while computing the
patched bytes: `ZeroDivisionError` from `newWidth / width`;
a `NameError` when `encodedDistance` is called on a negative value (the
`for` loop body never runs, leaving the loop variable `i` unbound);
an `OverflowError` from `int.to_bytes(2, ...)` on a value outside
`[0, 65536)`. -/
inductive PatchError where
  | zeroDivision
  | negativeLoopIndex
  | bytesOverflow
deriving DecidableEq

/-- The byte pair produced by `int.to_bytes(2, byteorder='big')` for a value
in `[0, 65536)`: high byte first, low byte second. -/
def be2 (v : ℤ) : ℕ × ℕ := (v.toNat / 256, v.toNat % 256)

/-- Write a 2-byte value into a byte map at offset `off` (big-endian:
high byte at `off`, low byte at `off + 1`). -/
def writeBytes2 (f : ℕ → ℕ) (off : ℕ) (b : ℕ × ℕ) : ℕ → ℕ :=
  fun i => if i = off then b.1 else if i = off + 1 then b.2 else f i

/-- `setEpsonConfig` (src/app.py lines 224-261), idealized exact-rational
reading of the one float expression it contains (the height rescale; the
bit-faithful IEEE-754 reading is `setEpsonConfigF` below, used by the
rounding-sensitive claims).  The template byte map
stands for the pristine `.bak` copy restored by `shutil.copyfile` before
any patching.  Steps, in source order: clamp `newWidth = min(44, width)`;
rescale `height = int(height * (newWidth / width))` (this division is the
first statement that can raise, via `ZeroDivisionError` when `width == 0`,
so on that input no patched byte is ever produced); write the encoded
height at 0x0004173C, the encoded width at 0x00041738, and the orientation
flag at 0x00041736 (`0x0000` when the rescaled height exceeds the clamped
width, else `0x0001`), each as 2 big-endian bytes.  The final copy to the
driver's config location publishes the returned byte map unchanged. -/
def setEpsonConfig (width height : ℤ) (template : ℕ → ℕ) :
    Except PatchError (ℕ → ℕ) :=
  let newWidth := min 44 width
  if width = 0 then .error .zeroDivision
  else
    let height2 := truncQ ((height : ℚ) * ((newWidth : ℚ) / (width : ℚ)))
    if height2 < 0 then .error .negativeLoopIndex
    else if 0 ≤ encodedDistance height2.toNat ∧ encodedDistance height2.toNat < 65536 then
      let f1 := writeBytes2 template 0x0004173C (be2 (encodedDistance height2.toNat))
      if newWidth < 0 then .error .negativeLoopIndex
      else if 0 ≤ encodedDistance newWidth.toNat ∧ encodedDistance newWidth.toNat < 65536 then
        let f2 := writeBytes2 f1 0x00041738 (be2 (encodedDistance newWidth.toNat))
        if newWidth < height2 then .ok (writeBytes2 f2 0x00041736 (0, 0))
        else .ok (writeBytes2 f2 0x00041736 (0, 1))
      else .error .bytesOverflow
    else .error .bytesOverflow

/-- Observe one byte of the patched config (`none` when `setEpsonConfig`
raises). -/
def setEpsonByte (width height : ℤ) (template : ℕ → ℕ) (off : ℕ) : Option ℕ :=
  match setEpsonConfig width height template with
  | .ok f => some (f off)
  | .error _ => none

/-! ### IEEE-754 binary64 model

The Python programs compute with IEEE-754 double precision.  A finite
double is an exactly representable rational; every arithmetic operation
produces the exact result rounded to 53 significant bits, to nearest,
ties to even.  `roundF` below is that rounding, and the `...F` variants
of the program functions insert it at every float operation, making them
bit-faithful to CPython (comparisons, `int()` and `math.ceil` on doubles
are exact and need no rounding). -/

/-- Round a rational to an integer: to nearest, ties to even — the final
rounding step of every IEEE-754 operation, applied to the exact result
scaled into its significand grid. -/
def roundHalfEven (n : ℚ) : ℤ :=
  if n - ⌊n⌋ < 1 / 2 then ⌊n⌋
  else if 1 / 2 < n - ⌊n⌋ then ⌊n⌋ + 1
  else if ⌊n⌋ % 2 = 0 then ⌊n⌋ else ⌊n⌋ + 1

/-- The exponent of the unit in the last place of the binary64 value
nearest to a positive rational `q`: 52 binary places below the leading
digit, clamped to the fixed subnormal grid `2 ^ (-1074)`. -/
def floatUlpExp (q : ℚ) : ℤ := max (Int.log 2 q - 52) (-1074)

/-- Round an exact rational onto the IEEE-754 binary64 grid (round to
nearest, ties to even), returning the exact rational value of the
resulting double.  This is the value CPython produces for every float
arithmetic operation.  Overflow to infinity is not modelled: every value
arising in the claims stays far below `2 ^ 1024`. -/
def roundF (q : ℚ) : ℚ :=
  if q < 0 then
    -((roundHalfEven (-q * 2 ^ (-floatUlpExp (-q))) : ℚ) * 2 ^ floatUlpExp (-q))
  else (roundHalfEven (q * 2 ^ (-floatUlpExp q)) : ℚ) * 2 ^ floatUlpExp q

/-- Python `float(z)` for an integer `z`: exact for `|z| < 2 ^ 53`. -/
def toF (z : ℤ) : ℚ := roundF (z : ℚ)

/-- Python `int / int` true division: `ZeroDivisionError` on a zero
divisor, otherwise the correctly rounded double of the exact quotient. -/
def pyDivII (a b : ℤ) : Option ℚ :=
  if b = 0 then none else some (roundF ((a : ℚ) / (b : ℚ)))

/-- Python `int / float` true division: the integer is converted to a
double, then the quotient of the two doubles is correctly rounded. -/
def pyDivIF (a : ℤ) (b : ℚ) : Option ℚ :=
  if b = 0 then none else some (roundF (toF a / b))

/-- Bit-faithful IEEE-754 reading of the `calculateJPG` branch computation
(src/app.py lines 126-186): identical branch structure to
`calculateJPGraw`, with every Python float operation rounded by `roundF`.
Integer-valued options (`specific_width`, `specific_height`,
`specific_dpi`, `paper_width`) flow through unrounded, exactly as Python
ints do; float comparisons compare the exact represented values. -/
def calculateJPGrawF (img : ImgDims) (opts : RenderOptions) : Option (ℚ × ℚ × ℚ) :=
  let d := rotDims img opts.side
  let w : ℤ := d.width
  let h : ℤ := d.height
  match opts.specific_width, opts.specific_height with
  | some sw, none => do
    let dpi ← pyDivII w sw
    let hIn ← pyDivIF h dpi
    pure ((sw : ℚ), hIn, dpi)
  | none, some sh => do
    let dpi ← pyDivII h sh
    let wIn ← pyDivIF w dpi
    pure (wIn, (sh : ℚ), dpi)
  | some sw, some sh => do
    let dpiW ← pyDivII w sw
    let dpiH ← pyDivII h sh
    if dpiH < dpiW then do
      let hIn ← pyDivIF h dpiW
      pure ((sw : ℚ), hIn, dpiW)
    else do
      let wIn ← pyDivIF w dpiH
      pure (wIn, (sh : ℚ), dpiH)
  | none, none =>
    match opts.specific_dpi with
    | some sdpi => do
      let wIn ← pyDivII w sdpi
      let hIn ← pyDivII h sdpi
      pure (wIn, hIn, (sdpi : ℚ))
    | none =>
      let sides :=
        if (opts.side = "short" ∧ d.width > d.height) ∨
           (opts.side = "long" ∧ d.width < d.height)
        then (h, w) else (w, h)
      do
        let dpi ← pyDivII sides.1 opts.paper_width
        let hIn ← pyDivIF sides.2 dpi
        pure ((opts.paper_width : ℚ), hIn, dpi)

/-- Bit-faithful `calculateJPG`: the IEEE-754 branch computation followed
by the `int` / `math.ceil` / `int` finalization of lines 189-191 (both
exact on the representable values they receive). -/
def calculateJPGF (img : ImgDims) (opts : RenderOptions) : Option (ℤ × ℤ × ℤ) :=
  match calculateJPGrawF img opts with
  | none => none
  | some (w, h, dpi) => some (truncQ w, ⌈h⌉, truncQ dpi)

/-- Bit-faithful IEEE-754 reading of `setEpsonConfig` (src/app.py lines
224-261): identical to `setEpsonConfig` except that the height rescale
`int(height * (newWidth / width))` is computed exactly as CPython does —
the int-to-float conversion of `height`, the float division
`newWidth / width` and the float multiplication each round via
`roundF`. -/
def setEpsonConfigF (width height : ℤ) (template : ℕ → ℕ) :
    Except PatchError (ℕ → ℕ) :=
  let newWidth := min 44 width
  if width = 0 then .error .zeroDivision
  else
    let height2 := truncQ (roundF (toF height * roundF ((newWidth : ℚ) / (width : ℚ))))
    if height2 < 0 then .error .negativeLoopIndex
    else if 0 ≤ encodedDistance height2.toNat ∧ encodedDistance height2.toNat < 65536 then
      let f1 := writeBytes2 template 0x0004173C (be2 (encodedDistance height2.toNat))
      if newWidth < 0 then .error .negativeLoopIndex
      else if 0 ≤ encodedDistance newWidth.toNat ∧ encodedDistance newWidth.toNat < 65536 then
        let f2 := writeBytes2 f1 0x00041738 (be2 (encodedDistance newWidth.toNat))
        if newWidth < height2 then .ok (writeBytes2 f2 0x00041736 (0, 0))
        else .ok (writeBytes2 f2 0x00041736 (0, 1))
      else .error .bytesOverflow
    else .error .bytesOverflow

/-- Observe one byte of the config patched by the bit-faithful model
(`none` when `setEpsonConfigF` raises). -/
def setEpsonByteF (width height : ℤ) (template : ℕ → ℕ) (off : ℕ) : Option ℕ :=
  match setEpsonConfigF width height template with
  | .ok f => some (f off)
  | .error _ => none

/-- The fully patched byte map produced by a successful `setEpsonConfigF`
run (bit-faithful analogue of `patchedConfig`). -/
def patchedConfigF (w h : ℤ) (t : ℕ → ℕ) : ℕ → ℕ :=
  let h2 := truncQ (roundF (toF h * roundF (((min 44 w : ℤ) : ℚ) / (w : ℚ))))
  let f2 := writeBytes2 (writeBytes2 t 0x0004173C (be2 (encodedDistance h2.toNat)))
    0x00041738 (be2 (encodedDistance (min 44 w).toNat))
  if min 44 w < h2 then writeBytes2 f2 0x00041736 (0, 0)
  else writeBytes2 f2 0x00041736 (0, 1)

/-! ### Codec lemmas -/

lemma edGo_length (n : ℕ) : ∀ (s : ℤ) (st : ℕ), (edGo n s st).length = n := by
  induction n with
  | zero => intro s st; rfl
  | succ k ih => intro s st; simp [edGo, ih]

/-- For every input up to 86 the codec output lies in the unsigned 16-bit
range (exhaustive evaluation; sharp, as input 87 yields -990). -/
lemma encodedDistance_mem_range :
    ∀ n : ℕ, n < 87 → 0 ≤ encodedDistance n ∧ encodedDistance n ≤ 65535 := by decide

/-- Exhaustive comparison of the iterative codec against the legacy table
on the table's whole domain. -/
lemma encodedDistance_eq_table :
    ∀ n : ℕ, n < 81 → 5 ≤ n → encodedDistance n = (endcodedDistance (n : ℤ) : ℤ) := by decide

/-- C1: for every integer `n` with `5 ≤ n ≤ 80`, the iterative codec
`encodedDistance n` (src/app.py, src/test.py) returns the same value as the
legacy table-driven `endcodedDistance n` (src/Combined.py), i.e. the entry
of the 76-element lookup table at index `n - 5`. -/
theorem C1_codec_matches_table (n : ℕ) (h5 : 5 ≤ n) (h80 : n ≤ 80) :
    encodedDistance n = (endcodedDistance (n : ℤ) : ℤ) :=
  encodedDistance_eq_table n (by omega) h5

/-- Witness for C1 at the in-range input 24 (the width used in src/test.py). -/
theorem C1_codec_matches_table_witness :
    5 ≤ 24 ∧ 24 ≤ 80 ∧ encodedDistance 24 = (endcodedDistance (24 : ℤ) : ℤ) :=
  ⟨by decide, by decide, C1_codec_matches_table 24 (by decide) (by decide)⟩

/-- C2 counterexample: `encodedDistance` does not return the entry of the
result sequence at index `inches`: already at `inches = 1` the code yields
the entry at index 0 (25600) rather than the entry at index 1 (51200). -/
theorem C2_counterexample : encodedDistance 1 ≠ (edResult (1 + 1)).getD 1 0 := by decide

/-- C2 amended: `encodedDistance inches` runs exactly `inches + 1`
iterations of the step pattern, but returns the value recorded at index
`inches - 1` — the second-to-last entry — not the one at index `inches`;
for `inches = 0` Python's `result[-1]` wraps around to the single entry at
index 0 (which `ℕ`-subtraction `0 - 1 = 0` also denotes). -/
theorem C2_iterations_and_returned_index (inches : ℕ) :
    (edResult (inches + 1)).length = inches + 1 ∧
    encodedDistance inches = (edResult (inches + 1)).getD (inches - 1) 0 := by
  refine ⟨edGo_length _ _ _, ?_⟩
  cases inches with
  | zero => decide
  | succ k =>
    unfold encodedDistance pyGet
    rw [if_neg (by push_cast; omega)]
    congr 1
    omega

/-- C6 counterexample: the accumulator is not reduced modulo 65536 and the
returned value is not always an unsigned 16-bit integer: at `inches = 87`
the code returns the negative value -990 (a mod-65536 accumulator would
give 64546 there). -/
theorem C6_counterexample : encodedDistance 87 = -990 ∧ encodedDistance 87 < 0 := by decide

/-- C6 amended: the accumulator updates use exact (unbounded) Python
integer arithmetic, with no reduction modulo 65536 anywhere in the source;
for every input `inches ≤ 86` — which covers every inch value the
application can produce (the driver maximum is 80) — the returned value
lies in the unsigned 16-bit range `[0, 65535]`, where exact and mod-65536
arithmetic coincide.  The bound 86 is sharp: the input 87 yields the
negative value -990 (the counterexample); out-of-range outputs beyond 86
are sporadic rather than permanent (88, for instance, is back in range),
so no claim is made past the bound. -/
theorem C6_range_bounded (n : ℕ) (h : n ≤ 86) :
    0 ≤ encodedDistance n ∧ encodedDistance n ≤ 65535 :=
  encodedDistance_mem_range n (by omega)

/-- Witness for C6 (amended) at the largest driver-supported input, 80. -/
theorem C6_range_bounded_witness :
    (80 : ℕ) ≤ 86 ∧ 0 ≤ encodedDistance 80 ∧ encodedDistance 80 ≤ 65535 :=
  ⟨by decide, C6_range_bounded 80 (by decide)⟩

/-- C9: the iterative codec is total at zero, and
`encodedDistance 0 = encodedDistance 1 = 25600`: the function returns
`result[i-1]`, and Python's index `-1` selects the last element of the
one-element result sequence for input 0, not the zero-reference code
65535. -/
theorem C9_zero_and_one_inch :
    encodedDistance 0 = 25600 ∧ encodedDistance 1 = 25600 ∧ encodedDistance 0 ≠ 65535 := by
  decide

/-! ### Rounding lemmas -/

lemma roundHalfEven_intCast (z : ℤ) : roundHalfEven (z : ℚ) = z := by
  unfold roundHalfEven
  rw [Int.floor_intCast]
  norm_num

lemma floor_le_roundHalfEven (n : ℚ) : ⌊n⌋ ≤ roundHalfEven n := by
  unfold roundHalfEven
  split_ifs <;> omega

lemma roundHalfEven_le_floor_add_one (n : ℚ) : roundHalfEven n ≤ ⌊n⌋ + 1 := by
  unfold roundHalfEven
  split_ifs <;> omega

lemma roundF_zero : roundF 0 = 0 := by
  unfold roundF
  rw [if_neg (by norm_num)]
  have h : (0 : ℚ) * 2 ^ (-floatUlpExp 0) = ((0 : ℤ) : ℚ) := by norm_num
  rw [h, roundHalfEven_intCast]
  norm_num

lemma roundF_nonneg {q : ℚ} (h : 0 ≤ q) : 0 ≤ roundF q := by
  unfold roundF
  rw [if_neg (not_lt.mpr h)]
  have h1 : (0 : ℤ) ≤ ⌊q * 2 ^ (-floatUlpExp q)⌋ := Int.floor_nonneg.mpr (by positivity)
  have h2 := floor_le_roundHalfEven (q * 2 ^ (-floatUlpExp q))
  have h3 : (0 : ℚ) ≤ (roundHalfEven (q * 2 ^ (-floatUlpExp q)) : ℚ) := by
    exact_mod_cast le_trans h1 h2
  exact mul_nonneg h3 (by positivity)

/-- Crude but sufficient upper bound on the rounding: a binary64 result
exceeds the exact value by at most one unit in the last place, which is at
most `q * 2 ^ (-52)` in the normal range and `2 ^ (-1074)` below it. -/
lemma roundF_le {q : ℚ} (h : 0 ≤ q) :
    roundF q ≤ q + q * 2 ^ (-52 : ℤ) + 2 ^ (-1074 : ℤ) := by
  rcases eq_or_lt_of_le h with rfl | hq
  · rw [roundF_zero]
    positivity
  · have hE : (2 : ℚ) ^ floatUlpExp q ≤ q * 2 ^ (-52 : ℤ) + 2 ^ (-1074 : ℤ) := by
      unfold floatUlpExp
      rcases max_cases (Int.log 2 q - 52) (-1074 : ℤ) with ⟨h1, h2⟩ | ⟨h1, h2⟩ <;> rw [h1]
      · have hlog : (2 : ℚ) ^ Int.log 2 q ≤ q := by
          have := Int.zpow_log_le_self (b := 2) (by norm_num) hq
          push_cast at this
          exact this
        have hdiv : (2 : ℚ) ^ Int.log 2 q * 2 ^ (-52 : ℤ) ≤ q * 2 ^ (-52 : ℤ) :=
          mul_le_mul_of_nonneg_right hlog (by positivity)
        have hsplit : (2 : ℚ) ^ (Int.log 2 q - 52) = 2 ^ Int.log 2 q * 2 ^ (-52 : ℤ) := by
          rw [← zpow_add₀ (by norm_num : (2 : ℚ) ≠ 0)]
          congr 1
        rw [hsplit]
        have : (0 : ℚ) ≤ 2 ^ (-1074 : ℤ) := by positivity
        linarith
      · have : (0 : ℚ) ≤ q * 2 ^ (-52 : ℤ) := by positivity
        linarith
    unfold roundF
    rw [if_neg (not_lt.mpr h)]
    have hrhe : (roundHalfEven (q * 2 ^ (-floatUlpExp q)) : ℚ) ≤ q * 2 ^ (-floatUlpExp q) + 1 := by
      have ha := roundHalfEven_le_floor_add_one (q * 2 ^ (-floatUlpExp q))
      have hb := Int.floor_le (q * 2 ^ (-floatUlpExp q))
      have hc : ((roundHalfEven (q * 2 ^ (-floatUlpExp q)) : ℤ) : ℚ) ≤
          (⌊q * 2 ^ (-floatUlpExp q)⌋ : ℚ) + 1 := by exact_mod_cast ha
      linarith
    calc (roundHalfEven (q * 2 ^ (-floatUlpExp q)) : ℚ) * 2 ^ floatUlpExp q
        ≤ (q * 2 ^ (-floatUlpExp q) + 1) * 2 ^ floatUlpExp q :=
          mul_le_mul_of_nonneg_right hrhe (by positivity)
      _ = q + 2 ^ floatUlpExp q := by
          rw [add_mul, one_mul, mul_assoc, ← zpow_add₀ (by norm_num : (2 : ℚ) ≠ 0)]
          norm_num
      _ ≤ q + (q * 2 ^ (-52 : ℤ) + 2 ^ (-1074 : ℤ)) := by linarith
      _ = q + q * 2 ^ (-52 : ℤ) + 2 ^ (-1074 : ℤ) := by ring

/-- A value at least `2 ^ (-1022)` (the bottom of the normal range) rounds
to a positive double. -/
lemma roundF_pos {q : ℚ} (h : (2 : ℚ) ^ (-1022 : ℤ) ≤ q) : 0 < roundF q := by
  have hq : 0 < q := lt_of_lt_of_le (by positivity) h
  have hlog : (-1022 : ℤ) ≤ Int.log 2 q := by
    rw [← Int.zpow_le_iff_le_log (by norm_num : 1 < 2) hq]
    push_cast
    exact h
  have hE : floatUlpExp q = Int.log 2 q - 52 := by
    unfold floatUlpExp
    exact max_eq_left (by omega)
  have hlogle : (2 : ℚ) ^ Int.log 2 q ≤ q := by
    have := Int.zpow_log_le_self (b := 2) (by norm_num) hq
    push_cast at this
    exact this
  have hn : (1 : ℚ) ≤ q * 2 ^ (-(Int.log 2 q - 52)) := by
    have h52 : (2 : ℚ) ^ (52 : ℤ) ≤ q * 2 ^ (-(Int.log 2 q - 52)) := by
      have hsplit : (2 : ℚ) ^ (52 : ℤ) =
          2 ^ Int.log 2 q * 2 ^ (-(Int.log 2 q - 52)) := by
        rw [← zpow_add₀ (by norm_num : (2 : ℚ) ≠ 0)]
        congr 1
        ring
      rw [hsplit]
      exact mul_le_mul_of_nonneg_right hlogle (by positivity)
    have : (1 : ℚ) ≤ (2 : ℚ) ^ (52 : ℤ) := by norm_num
    linarith
  have hfl : (1 : ℤ) ≤ ⌊q * 2 ^ (-(Int.log 2 q - 52))⌋ :=
    Int.le_floor.mpr (by exact_mod_cast hn)
  have hrhe := floor_le_roundHalfEven (q * 2 ^ (-(Int.log 2 q - 52)))
  unfold roundF
  rw [if_neg (not_lt.mpr hq.le), hE]
  have hpos : (0 : ℚ) < (roundHalfEven (q * 2 ^ (-(Int.log 2 q - 52))) : ℚ) := by
    exact_mod_cast lt_of_lt_of_le zero_lt_one (le_trans hfl hrhe)
  exact mul_pos hpos (by positivity)

/-- Conversion of a small integer to a double is exact. -/
lemma roundF_intCast {z : ℤ} (h0 : 0 ≤ z) (hz : z < 2 ^ 53) : roundF (z : ℚ) = z := by
  rcases eq_or_lt_of_le h0 with rfl | hpos
  · rw [Int.cast_zero, roundF_zero]
  · have hqpos : (0 : ℚ) < (z : ℚ) := by exact_mod_cast hpos
    have hlogub : Int.log 2 ((z : ℤ) : ℚ) ≤ 52 := by
      by_contra hcon
      push_neg at hcon
      have h1 : ((2 : ℕ) : ℚ) ^ (53 : ℤ) ≤ ((z : ℤ) : ℚ) :=
        (Int.zpow_le_iff_le_log (by norm_num) hqpos).mpr (by omega)
      have h2 : ((2 : ℚ)) ^ (53 : ℤ) ≤ ((z : ℤ) : ℚ) := by push_cast at h1; exact h1
      have h3 : ((2 : ℤ) ^ (53 : ℕ) : ℚ) ≤ ((z : ℤ) : ℚ) := by push_cast; push_cast at h2; linarith
      have h4 : (2 : ℤ) ^ (53 : ℕ) ≤ z := by exact_mod_cast h3
      omega
    have hloglb : (0 : ℤ) ≤ Int.log 2 ((z : ℤ) : ℚ) := by
      have h1 : ((2 : ℕ) : ℚ) ^ (0 : ℤ) ≤ ((z : ℤ) : ℚ) := by
        push_cast
        norm_num
        exact_mod_cast hpos
      exact (Int.zpow_le_iff_le_log (by norm_num) hqpos).mp h1
    have hE : floatUlpExp ((z : ℤ) : ℚ) = Int.log 2 ((z : ℤ) : ℚ) - 52 := by
      unfold floatUlpExp
      exact max_eq_left (by omega)
    have hk : (0 : ℤ) ≤ 52 - Int.log 2 ((z : ℤ) : ℚ) := by omega
    have hzpow : ((2 : ℚ) ^ ((52 - Int.log 2 ((z : ℤ) : ℚ)).toNat : ℕ)) =
        (2 : ℚ) ^ ((52 : ℤ) - Int.log 2 ((z : ℤ) : ℚ)) := by
      rw [← zpow_natCast (2 : ℚ), Int.toNat_of_nonneg hk]
    have hn : ((z : ℤ) : ℚ) * 2 ^ (-(Int.log 2 ((z : ℤ) : ℚ) - 52)) =
        ((z * 2 ^ (52 - Int.log 2 ((z : ℤ) : ℚ)).toNat : ℤ) : ℚ) := by
      push_cast
      rw [hzpow]
      rw [show (-(Int.log 2 ((z : ℤ) : ℚ) - 52)) = (52 : ℤ) - Int.log 2 ((z : ℤ) : ℚ) by ring]
    unfold roundF
    rw [if_neg (not_lt.mpr hqpos.le), hE, hn, roundHalfEven_intCast]
    push_cast
    rw [hzpow, mul_assoc, ← zpow_add₀ (by norm_num : (2 : ℚ) ≠ 0)]
    rw [show (52 : ℤ) - Int.log 2 ((z : ℤ) : ℚ) + (Int.log 2 ((z : ℤ) : ℚ) - 52) = 0 by ring]
    rw [zpow_zero, mul_one]

/-- Evaluation rule for `roundF` when the scaled exact value lies strictly
below the rounding midpoint: the significand rounds down to `m`.  The two
power hypotheses pin the leading-digit position. -/
lemma roundF_eval_lo {q : ℚ} {e m : ℤ} (h0 : 0 ≤ q) (he : (-1074 : ℤ) ≤ e)
    (h1 : (2 : ℚ) ^ (e + 52) ≤ q) (h2 : q < (2 : ℚ) ^ (e + 53))
    (hm1 : (m : ℚ) ≤ q * 2 ^ (-e)) (hm2 : q * 2 ^ (-e) < (m : ℚ) + 1 / 2) :
    roundF q = (m : ℚ) * 2 ^ e := by
  have hq : 0 < q := lt_of_lt_of_le (by positivity) h1
  have hlog : Int.log 2 q = e + 52 := by
    have ha : e + 52 ≤ Int.log 2 q :=
      (Int.zpow_le_iff_le_log (by norm_num) hq).mp (by push_cast; exact h1)
    have hb : Int.log 2 q < e + 53 :=
      (Int.lt_zpow_iff_log_lt (by norm_num) hq).mp (by push_cast; exact h2)
    omega
  have hE : floatUlpExp q = e := by
    unfold floatUlpExp
    rw [hlog, show e + 52 - 52 = e by ring]
    exact max_eq_left he
  have hfl : ⌊q * 2 ^ (-e)⌋ = m :=
    Int.floor_eq_iff.mpr ⟨hm1, by linarith⟩
  have hrhe : roundHalfEven (q * 2 ^ (-e)) = m := by
    unfold roundHalfEven
    rw [hfl, if_pos (by linarith)]
  unfold roundF
  rw [if_neg (not_lt.mpr h0), hE, hrhe]

/-- Evaluation rule for `roundF` when the scaled exact value lies strictly
above the rounding midpoint: the significand rounds up to `m`. -/
lemma roundF_eval_hi {q : ℚ} {e m : ℤ} (h0 : 0 ≤ q) (he : (-1074 : ℤ) ≤ e)
    (h1 : (2 : ℚ) ^ (e + 52) ≤ q) (h2 : q < (2 : ℚ) ^ (e + 53))
    (hm1 : (m : ℚ) - 1 / 2 < q * 2 ^ (-e)) (hm2 : q * 2 ^ (-e) < (m : ℚ)) :
    roundF q = (m : ℚ) * 2 ^ e := by
  have hq : 0 < q := lt_of_lt_of_le (by positivity) h1
  have hlog : Int.log 2 q = e + 52 := by
    have ha : e + 52 ≤ Int.log 2 q :=
      (Int.zpow_le_iff_le_log (by norm_num) hq).mp (by push_cast; exact h1)
    have hb : Int.log 2 q < e + 53 :=
      (Int.lt_zpow_iff_log_lt (by norm_num) hq).mp (by push_cast; exact h2)
    omega
  have hE : floatUlpExp q = e := by
    unfold floatUlpExp
    rw [hlog, show e + 52 - 52 = e by ring]
    exact max_eq_left he
  have hfl : ⌊q * 2 ^ (-e)⌋ = m - 1 :=
    Int.floor_eq_iff.mpr ⟨by push_cast; linarith, by push_cast; linarith⟩
  have hrhe : roundHalfEven (q * 2 ^ (-e)) = m := by
    unfold roundHalfEven
    rw [hfl, if_neg (by push_cast; linarith), if_pos (by push_cast; linarith)]
    omega
  unfold roundF
  rw [if_neg (not_lt.mpr h0), hE, hrhe]

/-! ### Patcher lemmas -/

lemma truncQ_of_nonneg {q : ℚ} (h : 0 ≤ q) : truncQ q = ⌊q⌋ := by
  unfold truncQ
  rw [if_neg (not_lt.mpr h)]

/-- The rescaled height `int(height * (min(44, width) / width))` lies in
`[0, height]` whenever `width > 0` and `height ≥ 0`. -/
lemma rescale_bounds {w h : ℤ} (hw : 0 < w) (h0 : 0 ≤ h) :
    0 ≤ truncQ ((h : ℚ) * (((min 44 w : ℤ) : ℚ) / (w : ℚ))) ∧
    truncQ ((h : ℚ) * (((min 44 w : ℤ) : ℚ) / (w : ℚ))) ≤ h := by
  have hwq : (0 : ℚ) < (w : ℚ) := by exact_mod_cast hw
  have hminq : (0 : ℚ) ≤ ((min 44 w : ℤ) : ℚ) := by
    have : (0 : ℤ) ≤ min 44 w := le_min (by norm_num) hw.le
    exact_mod_cast this
  have hq0 : 0 ≤ (h : ℚ) * (((min 44 w : ℤ) : ℚ) / (w : ℚ)) :=
    mul_nonneg (by exact_mod_cast h0) (div_nonneg hminq hwq.le)
  have hratio : ((min 44 w : ℤ) : ℚ) / (w : ℚ) ≤ 1 := by
    rw [div_le_one hwq]
    exact_mod_cast min_le_right 44 w
  have hqh : (h : ℚ) * (((min 44 w : ℤ) : ℚ) / (w : ℚ)) ≤ (h : ℚ) :=
    mul_le_of_le_one_right (by exact_mod_cast h0) hratio
  refine ⟨?_, ?_⟩
  · rw [truncQ_of_nonneg hq0]
    exact Int.floor_nonneg.mpr hq0
  · rw [truncQ_of_nonneg hq0]
    calc ⌊(h : ℚ) * (((min 44 w : ℤ) : ℚ) / (w : ℚ))⌋ ≤ ⌊(h : ℚ)⌋ := Int.floor_le_floor hqh
    _ = h := Int.floor_intCast h

/-- The fully patched byte map produced by a successful `setEpsonConfig`
run: encoded rescaled height at 0x0004173C, encoded clamped width at
0x00041738, orientation flag at 0x00041736. -/
def patchedConfig (w h : ℤ) (t : ℕ → ℕ) : ℕ → ℕ :=
  let h2 := truncQ ((h : ℚ) * (((min 44 w : ℤ) : ℚ) / (w : ℚ)))
  let f2 := writeBytes2 (writeBytes2 t 0x0004173C (be2 (encodedDistance h2.toNat)))
    0x00041738 (be2 (encodedDistance (min 44 w).toNat))
  if min 44 w < h2 then writeBytes2 f2 0x00041736 (0, 0)
  else writeBytes2 f2 0x00041736 (0, 1)

/-- On every input with positive width and height in `[0, 86]`,
`setEpsonConfig` raises no exception and returns the patched byte map. -/
lemma setEpsonConfig_ok (w h : ℤ) (t : ℕ → ℕ) (hw : 0 < w) (h0 : 0 ≤ h) (h86 : h ≤ 86) :
    setEpsonConfig w h t = .ok (patchedConfig w h t) := by
  have hb := rescale_bounds (w := w) (h := h) hw h0
  have hminnn : (0 : ℤ) ≤ min 44 w := le_min (by norm_num) hw.le
  have hmin44 : min 44 w ≤ 44 := min_le_left 44 w
  have hr1 := encodedDistance_mem_range
    (truncQ ((h : ℚ) * (((min 44 w : ℤ) : ℚ) / (w : ℚ)))).toNat (by omega)
  have hr2 := encodedDistance_mem_range (min 44 w).toNat (by omega)
  simp only [setEpsonConfig, patchedConfig]
  rw [if_neg hw.ne', if_neg (not_lt.mpr hb.1), if_pos ⟨hr1.1, by omega⟩,
    if_neg (not_lt.mpr hminnn), if_pos ⟨hr2.1, by omega⟩]
  split <;> rfl

/-- The three 2-byte fields of `patchedConfig`, read back. -/
lemma patchedConfig_eval (w h : ℤ) (t : ℕ → ℕ) :
    (patchedConfig w h t 0x0004173C, patchedConfig w h t 0x0004173D) =
      be2 (encodedDistance (truncQ ((h : ℚ) * (((min 44 w : ℤ) : ℚ) / (w : ℚ)))).toNat) ∧
    (patchedConfig w h t 0x00041738, patchedConfig w h t 0x00041739) =
      be2 (encodedDistance (min 44 w).toNat) ∧
    (patchedConfig w h t 0x00041736, patchedConfig w h t 0x00041737) =
      (if min 44 w < truncQ ((h : ℚ) * (((min 44 w : ℤ) : ℚ) / (w : ℚ)))
       then (0, 0) else (0, 1)) := by
  unfold patchedConfig writeBytes2
  split_ifs <;> norm_num

/-- The bit-faithful rescaled height `int(float(h) * (min(44, w) / w))`
lies in `[0, 86]` whenever `w > 0` and `0 ≤ h ≤ 86`: the rounded float
ratio is at most `1 + 2 ^ (-52) + 2 ^ (-1074)`, and rounding the product
adds at most one more unit in the last place, keeping it below 87. -/
lemma rescaleF_bounds {w h : ℤ} (hw : 0 < w) (h0 : 0 ≤ h) (h86 : h ≤ 86) :
    0 ≤ truncQ (roundF (toF h * roundF (((min 44 w : ℤ) : ℚ) / (w : ℚ)))) ∧
    truncQ (roundF (toF h * roundF (((min 44 w : ℤ) : ℚ) / (w : ℚ)))) ≤ 86 := by
  have hwq : (0 : ℚ) < (w : ℚ) := by exact_mod_cast hw
  have hminq : (0 : ℚ) ≤ ((min 44 w : ℤ) : ℚ) := by
    have : (0 : ℤ) ≤ min 44 w := le_min (by norm_num) hw.le
    exact_mod_cast this
  have hratio0 : (0 : ℚ) ≤ ((min 44 w : ℤ) : ℚ) / (w : ℚ) := div_nonneg hminq hwq.le
  have hratio1 : ((min 44 w : ℤ) : ℚ) / (w : ℚ) ≤ 1 := by
    rw [div_le_one hwq]
    exact_mod_cast min_le_right 44 w
  have hr0 : (0 : ℚ) ≤ roundF (((min 44 w : ℤ) : ℚ) / (w : ℚ)) := roundF_nonneg hratio0
  have hr1 : roundF (((min 44 w : ℤ) : ℚ) / (w : ℚ)) ≤
      1 + 2 ^ (-52 : ℤ) + 2 ^ (-1074 : ℤ) := by
    have hle := roundF_le hratio0
    have hmul : (((min 44 w : ℤ) : ℚ) / (w : ℚ)) * 2 ^ (-52 : ℤ) ≤ 1 * 2 ^ (-52 : ℤ) :=
      mul_le_mul_of_nonneg_right hratio1 (by positivity)
    linarith
  have hh : toF h = (h : ℚ) := by
    have := roundF_intCast (z := h) h0 (by omega)
    simpa [toF] using this
  have hhq0 : (0 : ℚ) ≤ (h : ℚ) := by exact_mod_cast h0
  have hhq86 : (h : ℚ) ≤ 86 := by exact_mod_cast h86
  have harg0 : (0 : ℚ) ≤ toF h * roundF (((min 44 w : ℤ) : ℚ) / (w : ℚ)) := by
    rw [hh]
    exact mul_nonneg hhq0 hr0
  have hargle : toF h * roundF (((min 44 w : ℤ) : ℚ) / (w : ℚ)) ≤
      86 * (1 + 2 ^ (-52 : ℤ) + 2 ^ (-1074 : ℤ)) := by
    rw [hh]
    exact mul_le_mul hhq86 hr1 hr0 (by norm_num)
  have hlt87 : roundF (toF h * roundF (((min 44 w : ℤ) : ℚ) / (w : ℚ))) < 87 := by
    have h1 := roundF_le harg0
    have h2 : (toF h * roundF (((min 44 w : ℤ) : ℚ) / (w : ℚ))) * 2 ^ (-52 : ℤ) ≤
        (86 * (1 + 2 ^ (-52 : ℤ) + 2 ^ (-1074 : ℤ))) * 2 ^ (-52 : ℤ) :=
      mul_le_mul_of_nonneg_right hargle (by positivity)
    have h3 : (86 : ℚ) * (1 + 2 ^ (-52 : ℤ) + 2 ^ (-1074 : ℤ)) +
        (86 * (1 + 2 ^ (-52 : ℤ) + 2 ^ (-1074 : ℤ))) * 2 ^ (-52 : ℤ) +
        2 ^ (-1074 : ℤ) < 87 := by norm_num
    linarith
  have hrnn := roundF_nonneg harg0
  constructor
  · rw [truncQ_of_nonneg hrnn]
    exact Int.floor_nonneg.mpr hrnn
  · rw [truncQ_of_nonneg hrnn]
    have : ⌊roundF (toF h * roundF (((min 44 w : ℤ) : ℚ) / (w : ℚ)))⌋ < 87 :=
      Int.floor_lt.mpr (by exact_mod_cast hlt87)
    omega

/-- On every input with positive width and height in `[0, 86]`, the
bit-faithful `setEpsonConfigF` raises no exception and returns the patched
byte map. -/
lemma setEpsonConfigF_ok (w h : ℤ) (t : ℕ → ℕ) (hw : 0 < w) (h0 : 0 ≤ h) (h86 : h ≤ 86) :
    setEpsonConfigF w h t = .ok (patchedConfigF w h t) := by
  have hb := rescaleF_bounds (w := w) (h := h) hw h0 h86
  have hminnn : (0 : ℤ) ≤ min 44 w := le_min (by norm_num) hw.le
  have hmin44 : min 44 w ≤ 44 := min_le_left 44 w
  have hr1 := encodedDistance_mem_range
    (truncQ (roundF (toF h * roundF (((min 44 w : ℤ) : ℚ) / (w : ℚ))))).toNat (by omega)
  have hr2 := encodedDistance_mem_range (min 44 w).toNat (by omega)
  simp only [setEpsonConfigF, patchedConfigF]
  rw [if_neg hw.ne', if_neg (not_lt.mpr hb.1), if_pos ⟨hr1.1, by omega⟩,
    if_neg (not_lt.mpr hminnn), if_pos ⟨hr2.1, by omega⟩]
  split <;> rfl

/-- The three 2-byte fields of `patchedConfigF`, read back. -/
lemma patchedConfigF_eval (w h : ℤ) (t : ℕ → ℕ) :
    (patchedConfigF w h t 0x0004173C, patchedConfigF w h t 0x0004173D) =
      be2 (encodedDistance
        (truncQ (roundF (toF h * roundF (((min 44 w : ℤ) : ℚ) / (w : ℚ))))).toNat) ∧
    (patchedConfigF w h t 0x00041738, patchedConfigF w h t 0x00041739) =
      be2 (encodedDistance (min 44 w).toNat) ∧
    (patchedConfigF w h t 0x00041736, patchedConfigF w h t 0x00041737) =
      (if min 44 w < truncQ (roundF (toF h * roundF (((min 44 w : ℤ) : ℚ) / (w : ℚ))))
       then (0, 0) else (0, 1)) := by
  unfold patchedConfigF writeBytes2
  split_ifs <;> norm_num

/-- The double nearest to `44 / 45` (the float ratio for the C3 rescale at
width 45), as an exact rational: the exact value rounds down. -/
lemma roundF_ratio_45 :
    roundF ((44 : ℚ) / 45) = 8807039271302303 * 2 ^ (-53 : ℤ) :=
  roundF_eval_lo (by norm_num) (by norm_num) (by norm_num) (by norm_num)
    (by norm_num) (by norm_num)

/-- The double nearest to `10 * float(44 / 45)` (the rescaled height at
width 45, height 10), as an exact rational: it is `9.7777…`, which
truncates to 9. -/
lemma roundF_rescale_45_10 :
    roundF ((10 : ℚ) * (8807039271302303 * 2 ^ (-53 : ℤ))) =
      5504399544563939 * 2 ^ (-49 : ℤ) :=
  roundF_eval_lo (by norm_num) (by norm_num) (by norm_num) (by norm_num)
    (by norm_num) (by norm_num)

/-- C3 counterexample: for requested width 45 and height 10 the program
deploys the encoding of `int(10 * (44/45)) = 9` (height-code high byte
132 = 0x84), not of the ceiling `⌈10 * 44/45⌉ = 10` (high byte
232 = 0xE8), so the claimed ceiling rule is false of the code. -/
theorem C3_counterexample :
    setEpsonByteF 45 10 (fun _ => 0) 0x0004173C = some 132 ∧
    (be2 (encodedDistance (⌈(10 : ℚ) * 44 / 45⌉).toNat)).1 = 232 ∧
    (132 : ℕ) ≠ 232 := by
  refine ⟨?_, ?_, by decide⟩
  · have hok := setEpsonConfigF_ok 45 10 (fun _ => 0) (by norm_num) (by norm_num) (by norm_num)
    have heval := (patchedConfigF_eval 45 10 (fun _ => 0)).1
    have htoF : toF 10 = (10 : ℚ) := by
      have := roundF_intCast (z := 10) (by norm_num) (by norm_num)
      simpa [toF] using this
    have hmin : (((min 44 45 : ℤ) : ℤ) : ℚ) / ((45 : ℤ) : ℚ) = (44 : ℚ) / 45 := by norm_num
    rw [hmin, htoF, roundF_ratio_45, roundF_rescale_45_10] at heval
    have h9 : truncQ ((5504399544563939 : ℚ) * 2 ^ (-49 : ℤ)) = 9 := by
      rw [truncQ_of_nonneg (by positivity)]
      norm_num
    rw [h9] at heval
    have hfst : patchedConfigF 45 10 (fun _ => 0) 0x0004173C =
        (be2 (encodedDistance (Int.toNat 9))).1 := congrArg Prod.fst heval
    unfold setEpsonByteF
    rw [hok]
    show some (patchedConfigF 45 10 (fun _ => 0) 0x0004173C) = some 132
    rw [hfst]
    decide
  · have hc : (⌈(10 : ℚ) * 44 / 45⌉ : ℤ) = 10 := by norm_num [Int.ceil_eq_iff]
    rw [hc]
    decide

/-- C3 amended: if the requested width exceeds 44, the width code written
at 0x00041738 corresponds to `encode(44)` and the height code written at
0x0004173C corresponds to `encode(int(h * (44 / w)))` computed exactly as
the program computes it, in IEEE-754 double arithmetic — the rescaled
height is truncated toward zero by Python's `int()`, not rounded up, and
the truncated value is that of the rounded float product (which can fall
below the exact rational product, e.g. 54 instead of 55 at
width 60, height 75). -/
theorem C3_clamp_rescale_truncates (w h : ℤ) (t : ℕ → ℕ)
    (hw : 44 < w) (h0 : 0 ≤ h) (h86 : h ≤ 86) :
    ∃ f, setEpsonConfigF w h t = .ok f ∧
      (f 0x00041738, f 0x00041739) = be2 (encodedDistance 44) ∧
      (f 0x0004173C, f 0x0004173D) =
        be2 (encodedDistance (truncQ (roundF ((h : ℚ) * roundF (44 / (w : ℚ))))).toNat) := by
  have hmin : min 44 w = 44 := min_eq_left hw.le
  have heval := patchedConfigF_eval w h t
  rw [hmin] at heval
  have hcast : ((44 : ℤ) : ℚ) / (w : ℚ) = (44 : ℚ) / (w : ℚ) := by norm_num
  have ht : toF h = (h : ℚ) := by
    have := roundF_intCast (z := h) h0 (by omega)
    simpa [toF] using this
  rw [hcast, ht] at heval
  refine ⟨patchedConfigF w h t, setEpsonConfigF_ok w h t (by omega) h0 h86, ?_, ?_⟩
  · rw [heval.2.1]
    rfl
  · rw [heval.1]

/-- Witness for C3 (amended) at width 45, height 10: the float-rescaled
height is `int(10 * (44/45)) = int(9.7777…) = 9`. -/
theorem C3_clamp_rescale_truncates_witness :
    ∃ f, setEpsonConfigF 45 10 (fun _ => 0) = .ok f ∧
      (f 0x00041738, f 0x00041739) = be2 (encodedDistance 44) ∧
      (f 0x0004173C, f 0x0004173D) =
        be2 (encodedDistance (truncQ (roundF ((10 : ℚ) * roundF (44 / (45 : ℚ))))).toNat) :=
  C3_clamp_rescale_truncates 45 10 (fun _ => 0) (by norm_num) (by norm_num) (by norm_num)

/-- C8: `setEpsonConfig` writes the orientation flag at 0x00041736 as the
2-byte big-endian value 0x0000 when the rescaled height is strictly
greater than the (clamped) width, and 0x0001 otherwise. -/
theorem C8_orientation_flag (w h : ℤ) (t : ℕ → ℕ)
    (hw : 0 < w) (h0 : 0 ≤ h) (h86 : h ≤ 86) :
    ∃ f, setEpsonConfig w h t = .ok f ∧
      (f 0x00041736, f 0x00041737) =
        (if min 44 w < truncQ ((h : ℚ) * (((min 44 w : ℤ) : ℚ) / (w : ℚ)))
         then (0, 0) else (0, 1)) :=
  ⟨patchedConfig w h t, setEpsonConfig_ok w h t hw h0 h86, (patchedConfig_eval w h t).2.2⟩

/-- Witness for C8 at width 24, height 30 (the example values in
src/test.py): the rescaled height 30 exceeds the width 24. -/
theorem C8_orientation_flag_witness :
    ∃ f, setEpsonConfig 24 30 (fun _ => 0) = .ok f ∧
      (f 0x00041736, f 0x00041737) =
        (if min 44 24 < truncQ ((30 : ℚ) * (((min 44 24 : ℤ) : ℚ) / ((24 : ℤ) : ℚ)))
         then (0, 0) else (0, 1)) :=
  C8_orientation_flag 24 30 (fun _ => 0) (by decide) (by decide) (by decide)

/-- C10: `setEpsonConfig` called with width 0 fails with the unguarded
`ZeroDivisionError` raised by `height * (newWidth / width)` before any byte
of the config template is patched, so publication is not total on
degenerate zero-width input. -/
theorem C10_zero_width_raises (h : ℤ) (t : ℕ → ℕ) :
    setEpsonConfig 0 h t = .error .zeroDivision := rfl

/-! ### Layout claims -/

lemma truncQ_intCast (z : ℤ) : truncQ (z : ℚ) = z := by
  unfold truncQ
  split_ifs
  · exact Int.ceil_intCast z
  · exact Int.floor_intCast z

/-- C4: for every input image and every sizing policy, `calculateJPG`
finalizes the provisional rational triple by truncating `width_in` toward
zero (`int()`, i.e. `truncQ`), rounding `height_in` up (`math.ceil`), and
truncating `dpi` toward zero. -/
theorem C4_finalize_rounding (img : ImgDims) (opts : RenderOptions)
    (w h d : ℚ) (hraw : calculateJPGraw img opts = some (w, h, d)) :
    calculateJPG img opts = some (truncQ w, ⌈h⌉, truncQ d) := by
  simp [calculateJPG, hraw]

/-- Witness for C4 at a 3000×2400 image with `specific_dpi = 300`:
the provisional triple is (10, 8, 300) and survives finalization. -/
theorem C4_finalize_rounding_witness :
    calculateJPG ⟨3000, 2400⟩ ⟨"long", none, none, some 300, 44⟩ = some (10, 8, 300) := by
  have hraw : calculateJPGraw ⟨3000, 2400⟩ ⟨"long", none, none, some 300, 44⟩
      = some (10, 8, 300) := by
    simp [calculateJPGraw, rotDims, pyDiv]
    norm_num
  rw [C4_finalize_rounding _ _ _ _ _ hraw]
  norm_num [truncQ]

/-- C5 counterexample: `calculateJPG` neither reports an error nor keeps
all fields at least 1: a 100×100 image at `specific_dpi = 300` resolves to
`width_in = 0`, silently passed through. -/
theorem C5_counterexample :
    ¬ (∀ (img : ImgDims) (opts : RenderOptions) (r : ℤ × ℤ × ℤ),
        calculateJPG img opts = some r → 1 ≤ r.1 ∧ 1 ≤ r.2.1 ∧ 1 ≤ r.2.2) := by
  intro hall
  have heval : calculateJPG ⟨100, 100⟩ ⟨"long", none, none, some 300, 44⟩
      = some (0, 1, 300) := by
    simp [calculateJPG, calculateJPGraw, rotDims, pyDiv, truncQ]
    norm_num [Int.ceil_eq_iff]
  exact absurd (hall _ _ _ heval).1 (by decide)

/-- C5 amended: the layout resolution performs no validation at all: a zero
field (here `width_in = int(100/300) = 0`) is returned to the caller
unchanged, with no `InvalidLayout` error path anywhere in the source. -/
theorem C5_zero_passed_through :
    calculateJPG ⟨100, 100⟩ ⟨"long", none, none, some 300, 44⟩ = some (0, 1, 300) := by
  simp [calculateJPG, calculateJPGraw, rotDims, pyDiv, truncQ]
  norm_num [Int.ceil_eq_iff]

/-- C7: when both `specific_width` and `specific_height` are given,
`calculateJPG` takes the dpi from the bounding dimension — the one whose
pixels-per-inch ratio (as computed by the program, an IEEE-754 double) is
larger — and recomputes the other dimension's physical size from that dpi
by the program's float division, before the usual finalization.  Stated
over the bit-faithful model `calculateJPGF`; the bounds `2 ^ 53` on the
requested sizes and pixel dimensions keep every quotient inside the normal
float range (any physical print is many orders of magnitude below them). -/
theorem C7_fixed_both_bounding (wpx hpx : ℕ) (sw sh pw : ℤ) (side : String)
    (sdpi : Option ℤ) (hsw : 0 < sw) (hsh : 0 < sh)
    (hswB : sw ≤ 2 ^ 53) (hshB : sh ≤ 2 ^ 53)
    (hw : 0 < (rotDims ⟨wpx, hpx⟩ side).width)
    (hh : 0 < (rotDims ⟨wpx, hpx⟩ side).height)
    (hwB : ((rotDims ⟨wpx, hpx⟩ side).width : ℤ) < 2 ^ 53)
    (hhB : ((rotDims ⟨wpx, hpx⟩ side).height : ℤ) < 2 ^ 53) :
    calculateJPGF ⟨wpx, hpx⟩ ⟨side, some sw, some sh, sdpi, pw⟩ =
      some (if roundF (((rotDims ⟨wpx, hpx⟩ side).height : ℚ) / (sh : ℚ)) <
                roundF (((rotDims ⟨wpx, hpx⟩ side).width : ℚ) / (sw : ℚ))
            then (sw,
                  ⌈roundF (((rotDims ⟨wpx, hpx⟩ side).height : ℚ) /
                    roundF (((rotDims ⟨wpx, hpx⟩ side).width : ℚ) / (sw : ℚ)))⌉,
                  truncQ (max (roundF (((rotDims ⟨wpx, hpx⟩ side).width : ℚ) / (sw : ℚ)))
                              (roundF (((rotDims ⟨wpx, hpx⟩ side).height : ℚ) / (sh : ℚ)))))
            else (truncQ (roundF (((rotDims ⟨wpx, hpx⟩ side).width : ℚ) /
                    roundF (((rotDims ⟨wpx, hpx⟩ side).height : ℚ) / (sh : ℚ)))),
                  sh,
                  truncQ (max (roundF (((rotDims ⟨wpx, hpx⟩ side).width : ℚ) / (sw : ℚ)))
                              (roundF (((rotDims ⟨wpx, hpx⟩ side).height : ℚ) / (sh : ℚ)))))) := by
  have hswq : (0 : ℚ) < (sw : ℚ) := by exact_mod_cast hsw
  have hshq : (0 : ℚ) < (sh : ℚ) := by exact_mod_cast hsh
  have hswBq : (sw : ℚ) ≤ 2 ^ (53 : ℕ) := by exact_mod_cast hswB
  have hshBq : (sh : ℚ) ≤ 2 ^ (53 : ℕ) := by exact_mod_cast hshB
  have hwq : (1 : ℚ) ≤ ((rotDims ⟨wpx, hpx⟩ side).width : ℚ) := by exact_mod_cast hw
  have hhq : (1 : ℚ) ≤ ((rotDims ⟨wpx, hpx⟩ side).height : ℚ) := by exact_mod_cast hh
  have hthresholdW : (2 : ℚ) ^ (-1022 : ℤ) ≤
      ((rotDims ⟨wpx, hpx⟩ side).width : ℚ) / (sw : ℚ) := by
    calc (2 : ℚ) ^ (-1022 : ℤ) ≤ 1 / 2 ^ (53 : ℕ) := by norm_num
      _ ≤ 1 / (sw : ℚ) := one_div_le_one_div_of_le hswq hswBq
      _ ≤ ((rotDims ⟨wpx, hpx⟩ side).width : ℚ) / (sw : ℚ) :=
          (div_le_div_iff_of_pos_right hswq).mpr hwq
  have hthresholdH : (2 : ℚ) ^ (-1022 : ℤ) ≤
      ((rotDims ⟨wpx, hpx⟩ side).height : ℚ) / (sh : ℚ) := by
    calc (2 : ℚ) ^ (-1022 : ℤ) ≤ 1 / 2 ^ (53 : ℕ) := by norm_num
      _ ≤ 1 / (sh : ℚ) := one_div_le_one_div_of_le hshq hshBq
      _ ≤ ((rotDims ⟨wpx, hpx⟩ side).height : ℚ) / (sh : ℚ) :=
          (div_le_div_iff_of_pos_right hshq).mpr hhq
  have hposW : (0 : ℚ) < roundF (((rotDims ⟨wpx, hpx⟩ side).width : ℚ) / (sw : ℚ)) :=
    roundF_pos hthresholdW
  have hposH : (0 : ℚ) < roundF (((rotDims ⟨wpx, hpx⟩ side).height : ℚ) / (sh : ℚ)) :=
    roundF_pos hthresholdH
  have htoFw : toF ((rotDims ⟨wpx, hpx⟩ side).width : ℤ) =
      ((rotDims ⟨wpx, hpx⟩ side).width : ℚ) := by
    have h := roundF_intCast (z := ((rotDims ⟨wpx, hpx⟩ side).width : ℤ))
      (by positivity) hwB
    unfold toF
    rw [h]
    push_cast
    rfl
  have htoFh : toF ((rotDims ⟨wpx, hpx⟩ side).height : ℤ) =
      ((rotDims ⟨wpx, hpx⟩ side).height : ℚ) := by
    have h := roundF_intCast (z := ((rotDims ⟨wpx, hpx⟩ side).height : ℤ))
      (by positivity) hhB
    unfold toF
    rw [h]
    push_cast
    rfl
  have hdW : pyDivII ((rotDims ⟨wpx, hpx⟩ side).width : ℤ) sw
      = some (roundF (((rotDims ⟨wpx, hpx⟩ side).width : ℚ) / (sw : ℚ))) := by
    rw [pyDivII, if_neg hsw.ne']
    simp only [Int.cast_natCast]
  have hdH : pyDivII ((rotDims ⟨wpx, hpx⟩ side).height : ℤ) sh
      = some (roundF (((rotDims ⟨wpx, hpx⟩ side).height : ℚ) / (sh : ℚ))) := by
    rw [pyDivII, if_neg hsh.ne']
    simp only [Int.cast_natCast]
  have hdW2 : pyDivIF ((rotDims ⟨wpx, hpx⟩ side).height : ℤ)
      (roundF (((rotDims ⟨wpx, hpx⟩ side).width : ℚ) / (sw : ℚ)))
      = some (roundF (((rotDims ⟨wpx, hpx⟩ side).height : ℚ) /
        roundF (((rotDims ⟨wpx, hpx⟩ side).width : ℚ) / (sw : ℚ)))) := by
    rw [pyDivIF, if_neg hposW.ne', htoFh]
  have hdH2 : pyDivIF ((rotDims ⟨wpx, hpx⟩ side).width : ℤ)
      (roundF (((rotDims ⟨wpx, hpx⟩ side).height : ℚ) / (sh : ℚ)))
      = some (roundF (((rotDims ⟨wpx, hpx⟩ side).width : ℚ) /
        roundF (((rotDims ⟨wpx, hpx⟩ side).height : ℚ) / (sh : ℚ)))) := by
    rw [pyDivIF, if_neg hposH.ne', htoFw]
  by_cases hcmp : roundF (((rotDims ⟨wpx, hpx⟩ side).height : ℚ) / (sh : ℚ)) <
      roundF (((rotDims ⟨wpx, hpx⟩ side).width : ℚ) / (sw : ℚ))
  · rw [if_pos hcmp]
    have hmax : max (roundF (((rotDims ⟨wpx, hpx⟩ side).width : ℚ) / (sw : ℚ)))
        (roundF (((rotDims ⟨wpx, hpx⟩ side).height : ℚ) / (sh : ℚ)))
        = roundF (((rotDims ⟨wpx, hpx⟩ side).width : ℚ) / (sw : ℚ)) :=
      max_eq_left hcmp.le
    simp [calculateJPGF, calculateJPGrawF, hdW, hdH, hdW2, hcmp, hmax, truncQ_intCast]
  · rw [if_neg hcmp]
    have hmax : max (roundF (((rotDims ⟨wpx, hpx⟩ side).width : ℚ) / (sw : ℚ)))
        (roundF (((rotDims ⟨wpx, hpx⟩ side).height : ℚ) / (sh : ℚ)))
        = roundF (((rotDims ⟨wpx, hpx⟩ side).height : ℚ) / (sh : ℚ)) :=
      max_eq_right (not_lt.mp hcmp)
    simp [calculateJPGF, calculateJPGrawF, hdW, hdH, hdH2, hcmp, hmax, truncQ_intCast,
      Int.ceil_intCast]

/-- Witness for C7: a 4000×3000 px image printed at 20×20 inches: all
quotients are float-exact, the width ratio 200 exceeds the height ratio
150, and the resolver returns `(width_in, height_in, dpi) = (20, 15, 200)`
— the instance named by the claim. -/
theorem C7_fixed_both_bounding_witness :
    calculateJPGF ⟨4000, 3000⟩ ⟨"long", some 20, some 20, none, 24⟩ = some (20, 15, 200) := by
  have hrot : rotDims ⟨4000, 3000⟩ "long" = ⟨4000, 3000⟩ := by simp [rotDims]
  have hA : roundF (200 : ℚ) = 200 := by
    have h := roundF_intCast (z := 200) (by norm_num) (by norm_num)
    push_cast at h
    exact h
  have hB : roundF (150 : ℚ) = 150 := by
    have h := roundF_intCast (z := 150) (by norm_num) (by norm_num)
    push_cast at h
    exact h
  have hC : roundF (15 : ℚ) = 15 := by
    have h := roundF_intCast (z := 15) (by norm_num) (by norm_num)
    push_cast at h
    exact h
  rw [C7_fixed_both_bounding 4000 3000 20 20 24 "long" none (by decide) (by decide)
    (by decide) (by decide) (by rw [hrot]; decide) (by rw [hrot]; decide)
    (by rw [hrot]; decide) (by rw [hrot]; decide), hrot]
  norm_num [hA, hB, hC, truncQ]

end Blueprint
